import Mathlib

/-!
Verification of the presentation-transform layer of the Stellaris dashboard
(`src/stellarisdashboard/dash_server.py`).

Numeric observations (the Python floats) are modelled as exact rationals `Q`,
dates as integers.  Python truthiness on a float is `v ≠ 0`, on a list it is
non-emptiness; `zip` truncates to the shorter list, and these semantics are
mirrored below.  Code that can raise an uncaught exception (the budget-mode
index error) is modelled in `Option`, with `none` for the raised exception.
-/

namespace StellarisDashboard

abbrev Q := Rat

/-- Python `any(values)` on a list of floats: true iff some value is nonzero. -/
def pyAny (l : List Q) : Bool := l.any (fun v => v != 0)

/-- One named data series of a dataset: `(key, x_values, y_values)`. -/
structure Series where
  key : String
  x : List Q
  y : List Q
deriving DecidableEq

/-- Modelled from the spec: `visualization_data.get_color_vals` (module not under
`src/`), a deterministic country-to-colour mapping; the concrete hue is irrelevant
to every property proved here, only determinism matters. -/
def get_color_vals (key : String) : Q × Q × Q :=
  ((key.length : Q) / (key.length + 1), 1/2, 1/3)

/-- `get_country_color` from the source: clamp alpha into `[0,1]`, scale the
colour components by 255 and format an `rgba(...)` string. -/
def get_country_color (country_name : String) (alpha : Q := 1) : String :=
  let alpha := min alpha 1
  let alpha := max alpha 0
  let rgb := get_color_vals country_name
  "rgba(" ++ toString (rgb.1 * 255) ++ "," ++ toString (rgb.2.1 * 255) ++ ","
    ++ toString (rgb.2.2 * 255) ++ "," ++ toString alpha ++ ")"

/-- Modelled from the spec: the `"{val:.2f}"` display formatting of a value;
modelled as an exact rendering since no proved property inspects the digits. -/
def fmt2 (v : Q) : String := toString v

/-- One rendered plot-line dictionary.  Optional fields are dict keys that are
absent for some styles. -/
structure PlotLine where
  x : List Q
  y : List Q
  name : String
  text : List String
  lineColor : String
  fill : Option String
  fillcolor : Option String
  hoverinfo : Option String
deriving DecidableEq

/-- The line built for one series in line style (`_get_line_plot_data` loop body). -/
def lineStyleLine (s : Series) : PlotLine :=
  { x := s.x, y := s.y, name := s.key,
    text := s.y.map (fun v => fmt2 v ++ " - " ++ s.key),
    lineColor := get_country_color s.key 1,
    fill := none, fillcolor := none, hoverinfo := none }

/-- Core of `_get_line_plot_data`, over the sequence of series the data source
yields: all-zero series are skipped, the rest pass through. -/
def lineCore : List Series → List PlotLine
  | [] => []
  | s :: rest => if pyAny s.y then lineStyleLine s :: lineCore rest else lineCore rest

/-- The line built for one series in stacked style, given the cumulative y. -/
def stackedLine (s : Series) (yCum : List Q) : PlotLine :=
  { x := s.x, y := yCum, name := s.key,
    text := s.y.map (fun v => if v = 0 then "" else fmt2 v ++ " - " ++ s.key),
    lineColor := get_country_color s.key 1,
    fill := some "tonexty",
    fillcolor := some (get_country_color s.key (3/4)),
    hoverinfo := some "x+text" }

/-- Core loop of `_get_stacked_plot_data`: `y_previous` is `none` until the first
surviving series initialises it from that series' x-values; each surviving series
adds its y-values pointwise (Python `zip`, truncating); the cumulative copy is
emitted unless empty. -/
def stackedGo (yPrev : Option (List Q)) : List Series → List PlotLine
  | [] => []
  | s :: rest =>
    if pyAny s.y then
      let yp := yPrev.getD (s.x.map (fun _ => 0))
      let yNew := List.zipWith (· + ·) yp s.y
      if yNew.isEmpty then stackedGo (some yNew) rest
      else stackedLine s yNew :: stackedGo (some yNew) rest
    else stackedGo yPrev rest

/-- Core of `_get_stacked_plot_data` over the yielded series sequence. -/
def stackedCore (l : List Series) : List PlotLine := stackedGo none l

/-- Mutable accumulators of `_get_budget_plot_data`: the running net gain, the
positive stack, the negative stack, and the `pos_initiated` flag. -/
structure BState where
  netGain : List Q
  yPos : List Q
  yNeg : List Q
  posInit : Bool
deriving DecidableEq

/-- The three accumulators as freshly initialised from the first surviving
series' x-values (all zeros). -/
def freshBState (s : Series) : BState :=
  { netGain := s.x.map (fun _ => 0), yPos := s.x.map (fun _ => 0),
    yNeg := s.x.map (fun _ => 0), posInit := false }

/-- Python `for i, y in enumerate(ys): acc[i] += y` when `len(ys) ≤ len(acc)`:
add `ys` into the prefix of `acc`, leaving the tail unchanged. -/
def bumpList (acc ys : List Q) : List Q :=
  List.zipWith (· + ·) acc ys ++ acc.drop ys.length

/-- The line built for one series in budget style. -/
def budgetLine (s : Series) (yCum : List Q) (fillMode : String) : PlotLine :=
  { x := s.x, y := yCum, name := s.key,
    text := s.y.map (fun v => if v = 0 then "" else fmt2 v ++ " - " ++ s.key),
    lineColor := get_country_color s.key 1,
    fill := some fillMode,
    fillcolor := some (get_country_color s.key (3/10)),
    hoverinfo := some "x+text" }

/-- Core loop of `_get_budget_plot_data`.  Returns the reversed list of emitted
lines, the accumulator state and the warned flag, or `none` when the per-index
accumulation raises an IndexError (a y-list longer than the accumulators).
A mixed-sign series logs a warning and breaks out of the loop. -/
def budgetAux (st : Option BState) (acc : List PlotLine) :
    List Series → Option (List PlotLine × Option BState × Bool)
  | [] => some (acc, st, false)
  | s :: rest =>
    if pyAny s.y then
      let st0 := st.getD (freshBState s)
      if s.y.all (fun v => v ≤ 0) then
        if s.y.length ≤ st0.yNeg.length ∧ s.y.length ≤ st0.netGain.length then
          let yNew := bumpList st0.yNeg s.y
          budgetAux (some { st0 with yNeg := yNew, netGain := bumpList st0.netGain s.y })
            (budgetLine s yNew "tozeroy" :: acc) rest
        else none
      else if s.y.all (fun v => 0 ≤ v) then
        if s.y.length ≤ st0.yPos.length ∧ s.y.length ≤ st0.netGain.length then
          let yNew := bumpList st0.yPos s.y
          budgetAux
            (some { st0 with yPos := yNew, netGain := bumpList st0.netGain s.y, posInit := true })
            (budgetLine s yNew (if st0.posInit then "tonexty" else "tozeroy") :: acc) rest
        else none
      else some (acc, some st0, true)
    else budgetAux st acc rest

/-- The final unstacked "Net gain" line appended after the budget loop. -/
def netGainLine (x ng : List Q) : PlotLine :=
  { x := x, y := ng, name := "Net gain",
    text := ng.map (fun v => fmt2 v ++ " - net gain"),
    lineColor := "rgba(255,255,255,1)",
    fill := none, fillcolor := none, hoverinfo := some "x+text" }

/-- Core of `_get_budget_plot_data` over the yielded series sequence, paired with
the warned flag; `none` models the uncaught IndexError. -/
def budgetCoreW (l : List Series) : Option (List PlotLine × Bool) :=
  match budgetAux none [] l with
  | none => none
  | some (accRev, st, warned) =>
    match accRev.reverse, st with
    | [], _ => some ([], warned)
    | p :: ps, some stf => some ((p :: ps) ++ [netGainLine p.x stf.netGain], warned)
    | p :: ps, none => some ((p :: ps) ++ [netGainLine p.x []], warned)

/-- The budget plot list alone (warning flag dropped). -/
def budgetCore (l : List Series) : Option (List PlotLine) :=
  (budgetCoreW l).map (fun p => p.1)

/-- The dataset handed to the transforms: a bag of named series. -/
structure EmpireProgressionPlotData where
  series : List Series
deriving DecidableEq

/-- Modelled from the spec: `EmpireProgressionPlotData.iterate_data`
(`visualization_data` module not under `src/`) yields the dataset's series in an
unspecified default order; modelled as the stored order. -/
def iterate_data (pd : EmpireProgressionPlotData) : List Series := pd.series

/-- Final y-value of a series (0 for an empty series). -/
def lastVal (s : Series) : Q := s.y.getLastD 0

/-- Stable descending insertion by final y-value. -/
def insertByLastVal (s : Series) : List Series → List Series
  | [] => [s]
  | t :: rest =>
    if lastVal s ≥ lastVal t then s :: t :: rest else t :: insertByLastVal s rest

/-- Modelled from the spec: `EmpireProgressionPlotData.data_sorted_by_last_value`
(`visualization_data` module not under `src/`) yields the series sorted
descending by each series' final y-value (stable insertion sort). -/
def data_sorted_by_last_value (pd : EmpireProgressionPlotData) : List Series :=
  pd.series.foldr insertByLastVal []

/-- `_get_line_plot_data`: line core over the descending-final-value sequence. -/
def get_line_plot_data (pd : EmpireProgressionPlotData) : List PlotLine :=
  lineCore (data_sorted_by_last_value pd)

/-- `_get_stacked_plot_data`: stacked core over `iterate_data`'s sequence. -/
def get_stacked_plot_data (pd : EmpireProgressionPlotData) : List PlotLine :=
  stackedCore (iterate_data pd)

/-- `_get_budget_plot_data`: budget core over the descending-final-value
sequence. -/
def get_budget_plot_data (pd : EmpireProgressionPlotData) : Option (List PlotLine) :=
  budgetCore (data_sorted_by_last_value pd)

/-- A Python float used as a date bound: finite, or one of the two infinities
(`float("-inf")` / `float("inf")`, the constructor defaults). -/
inductive FDate where
  | negInf
  | fin (d : Int)
  | posInf
deriving DecidableEq

/-- Comparison of a date bound against an integer day count (`bound ≤ day`). -/
def FDate.leDay : FDate → Int → Bool
  | .negInf, _ => true
  | .fin a, d => a ≤ d
  | .posInf, _ => false

/-- Comparison of an integer day count against a date bound (`day ≤ bound`). -/
def FDate.dayLe : Int → FDate → Bool
  | _, .posInf => true
  | d, .fin b => d ≤ b
  | _, .negInf => false

/-- Python `int()` applied to a string: an optional sign followed by one or more
digits parses to that integer, anything else raises (returns `none`).
Whitespace stripping and underscore separators are elided. -/
def pyIntDigits (l : List Char) : Option Nat :=
  if l ≠ [] ∧ l.all Char.isDigit then
    some (l.foldl (fun a c => 10 * a + (c.toNat - 48)) 0)
  else none

/-- Python `int()` on a string, with sign handling. -/
def pyInt (s : String) : Option Int :=
  match s.data with
  | [] => none
  | '-' :: rest => (pyIntDigits rest).map (fun n => -(n : Int))
  | '+' :: rest => (pyIntDigits rest).map (fun n => (n : Int))
  | l => (pyIntDigits l).map (fun n => (n : Int))

/-- The constructed `EventFilter`: date bounds plus seven optional dimension
filters.  The six id filters hold coerced integers; the type filter is stored
exactly as provided (the source performs no coercion on it). -/
structure EventFilter where
  min_date : FDate
  max_date : FDate
  country_filter : Option Int
  type_filter : Option String
  war_filter : Option Int
  leader_filter : Option Int
  system_filter : Option Int
  planet_filter : Option Int
  faction_filter : Option Int
deriving DecidableEq

/-- Coerce one provided filter value with `int(...)`; `none` passes through,
a non-numeric string raises `ValueError` at construction time. -/
def coerceId : Option String → Except String (Option Int)
  | none => Except.ok none
  | some s =>
    match pyInt s with
    | some n => Except.ok (some n)
    | none => Except.error "ValueError"

/-- `EventFilter.__init__`: each id filter is coerced eagerly (failing fast on a
non-numeric value); `type_filter` is assigned without coercion. -/
def mkEventFilter (min_date : FDate := FDate.negInf) (max_date : FDate := FDate.posInf)
    (country_filter : Option String := none) (type_filter : Option String := none)
    (war_filter : Option String := none) (leader_filter : Option String := none)
    (system_filter : Option String := none) (planet_filter : Option String := none)
    (faction_filter : Option String := none) : Except String EventFilter := do
  let c ← coerceId country_filter
  let w ← coerceId war_filter
  let ld ← coerceId leader_filter
  let sys ← coerceId system_filter
  let pl ← coerceId planet_filter
  let fa ← coerceId faction_filter
  Except.ok
    { min_date := min_date, max_date := max_date, country_filter := c,
      type_filter := type_filter, war_filter := w, leader_filter := ld,
      system_filter := sys, planet_filter := pl, faction_filter := fa }

/-- Did an `Except` computation succeed? -/
def exceptOk {ε α : Type} : Except ε α → Bool
  | Except.ok _ => true
  | Except.error _ => false

/-- A planet record, as far as the event projection needs it: its id and the id
of the system it belongs to (if any). -/
structure Planet where
  planet_id : Int
  system : Option Int
deriving DecidableEq

/-- A historical event record from the store (`models.HistoricalEvent`):
entity references are modelled by their integer ids, the planet by a small
record so that `event.planet.system` is expressible. -/
structure HistoricalEvent where
  country : Int
  event_type : String
  start_date_days : Int
  end_date_days : Option Int
  war : Option Int
  leader : Option Int
  system : Option Int
  planet : Option Planet
  faction : Option Int
  target_country : Option Int
  is_known_to_player : Bool
  description : String
deriving DecidableEq

/-- The planet id of an event's planet reference (`event.planet_id`). -/
def HistoricalEvent.planet_id (e : HistoricalEvent) : Option Int :=
  e.planet.map (fun p => p.planet_id)

/-- `EventFilter.include_event`: the date-range check conjoined with every
provided dimension filter; unset filters pass vacuously. -/
def EventFilter.include_event (f : EventFilter) (e : HistoricalEvent) : Bool :=
  (f.min_date.leDay e.start_date_days && FDate.dayLe e.start_date_days f.max_date
      && (f.country_filter.elim true (fun c => c == e.country))
      && (f.type_filter.elim true (fun t => t == e.event_type)))
    && (f.war_filter.elim true (fun w => e.war == some w))
    && (f.leader_filter.elim true (fun l => e.leader == some l))
    && (f.system_filter.elim true (fun s => e.system == some s))
    && (f.planet_filter.elim true (fun p => e.planet_id == some p))
    && (f.faction_filter.elim true (fun fc => e.faction == some fc))

/-- Modelled from the spec: `models.days_to_date` (`models` module not under
`src/`), an injective rendering of a day count as a display date string. -/
def days_to_date (days : Int) : String := "date:" ++ toString days

/-- Modelled from the spec: the projected dict keeps a formatted end date only
for events that have one (the sparse dict "contains only non-null fields"). -/
def daysToDateOpt (days : Option Int) : Option String := days.map days_to_date

/-- Modelled from the spec: `models.HISTORICAL_EVENT_TYPE_TO_STR_MAP`, the
event-type display-label table; modelled as the identity labelling. -/
def eventTypeLabel (t : String) : String := t

/-- The sparse per-event dict built by `get_event_and_link_dicts`; `none` marks
a key dropped by the `v is not None` comprehension. -/
structure EventDict where
  country : Option Int
  start_date : Option String
  end_date : Option String
  event_type : Option String
  war : Option Int
  leader : Option Int
  system : Option Int
  planet : Option Planet
  faction : Option Int
  target_country : Option Int
  description : Option String
deriving DecidableEq

/-- Projection of one surviving event to its rendered dict: build all fields,
inherit the system from the event's planet when the event has no direct system,
and - when back-dating is disabled and the event starts before day 0 - force
both displayed dates to day 0.  The event record itself is only read. -/
def projectEvent (allow_backdating : Bool) (e : HistoricalEvent) : EventDict :=
  let base : EventDict :=
    { country := some e.country,
      start_date := some (days_to_date e.start_date_days),
      end_date := daysToDateOpt e.end_date_days,
      event_type := some (eventTypeLabel e.event_type),
      war := e.war, leader := e.leader, system := e.system, planet := e.planet,
      faction := e.faction, target_country := e.target_country,
      description := some e.description }
  let base :=
    match e.planet, base.system with
    | some p, none => { base with system := p.system }
    | _, _ => base
  if !allow_backdating && e.start_date_days < 0 then
    { base with start_date := some (days_to_date 0), end_date := some (days_to_date 0) }
  else base

/-- The two per-event gates of the ledger loop: the optional `EventFilter` and
the global visibility flag (`show_everything` or `is_known_to_player`). -/
def eventVisible (show_everything : Bool) (fl : Option EventFilter)
    (e : HistoricalEvent) : Bool :=
  (fl.elim true (fun f => f.include_event e)) && (show_everything || e.is_known_to_player)

/-- One iteration of the ledger loop: the projected dict of a surviving event,
`none` when the event is filtered out. -/
def processEvent (show_everything allow_backdating : Bool) (fl : Option EventFilter)
    (e : HistoricalEvent) : Option EventDict :=
  if eventVisible show_everything fl e then some (projectEvent allow_backdating e)
  else none

/-- The per-country event projection of `get_event_and_link_dicts`, with the
store's event records passed (and returned) explicitly: the code only reads
them, so the second component is the untouched record list. -/
def get_event_dicts (show_everything allow_backdating : Bool) (fl : Option EventFilter)
    (events : List HistoricalEvent) : List EventDict × List HistoricalEvent :=
  (events.filterMap (processEvent show_everything allow_backdating fl), events)

/-- A country as the war summary needs it. -/
structure WCountry where
  country_name : String
  first_player_contact_date : Option Int
deriving DecidableEq

/-- One war participant. -/
structure WarParticipant where
  country : WCountry
  is_attacker : Bool
deriving DecidableEq

/-- One combat event of a war; `text` is its `str(...)` rendering. -/
structure Combat where
  date : Int
  attacker_war_exhaustion : Q
  defender_war_exhaustion : Q
  combat_type : String
  text : String
deriving DecidableEq

/-- The `models.CombatType.armies` enum member. -/
def CombatTypeArmies : String := "armies"

/-- A war record from the store. -/
structure War where
  start_date_days : Int
  end_date_days : Option Int
  participants : List WarParticipant
  combat : List Combat
deriving DecidableEq

/-- Stable ascending insertion of a combat by date (Python `sorted`). -/
def insertCombat (c : Combat) : List Combat → List Combat
  | [] => [c]
  | d :: rest => if c.date ≤ d.date then c :: d :: rest else d :: insertCombat c rest

/-- `sorted(war.combat, key=lambda combat: combat.date)`. -/
def sortedCombats (l : List Combat) : List Combat := l.foldr insertCombat []

/-- A combat is rendered iff its combined war exhaustion exceeds `0.01` or it is
ground-army combat. -/
def notableCombat (c : Combat) : Bool :=
  (c.attacker_war_exhaustion + c.defender_war_exhaustion > 1/100)
    || (c.combat_type == CombatTypeArmies)

/-- The per-war summary record appended to the output. -/
structure WarDict where
  war : War
  start : String
  end_ : String
  attackers : List WarParticipant
  defenders : List WarParticipant
  combat : List String
deriving DecidableEq

/-- A war is visible to the player iff some participant's country has a recorded
first-contact date. -/
def warVisible (w : War) : Bool :=
  w.participants.any (fun wp => wp.country.first_player_contact_date.isSome)

/-- The summary dict of one war.  The end date falls back to the caller's
current date when `war.end_date_days` is falsy (absent, or day 0 - Python
truthiness). -/
def mkWarDict (current_date : Int) (w : War) : WarDict :=
  { war := w,
    start := days_to_date w.start_date_days,
    end_ :=
      match w.end_date_days with
      | some e => if e = 0 then days_to_date current_date else days_to_date e
      | none => days_to_date current_date,
    attackers := w.participants.filter (fun wp => wp.is_attacker),
    defenders := w.participants.filter (fun wp => !wp.is_attacker),
    combat := ((sortedCombats w.combat).filter notableCombat).map (fun c => c.text) }

/-- `get_war_dicts`, with the show-everything flag passed explicitly (the source
reads it from the process-wide configuration): wars with no
player-contacted participant are suppressed unless the flag is set. -/
def get_war_dicts (show_everything : Bool) (current_date : Int) : List War → List WarDict
  | [] => []
  | w :: rest =>
    if !show_everything && !warVisible w then get_war_dicts show_everything current_date rest
    else mkWarDict current_date w :: get_war_dicts show_everything current_date rest

/-- Modelled from the spec: `visualization_data.GalaxyMapData.UNCLAIMED`
(module not under `src/`), the sentinel owner value distinct from any real
country. -/
def UNCLAIMED : String := "Unclaimed Systems"

/-- One per-owner edge polyline trace of the galaxy map.  `x`/`y` hold
coordinates with `none` as the gap marker the source inserts after each edge;
`width`, `color`, `hoverinfo`, `mode` and `showlegend` mirror the
`go.scatter.Line`/`go.Scatter` keyword arguments. -/
structure EdgeTrace where
  x : List (Option Int)
  y : List (Option Int)
  text : List String
  width : Nat
  color : String
  hoverinfo : String
  mode : String
  showlegend : Bool
deriving DecidableEq

/-- The galaxy graph for the requested date: node positions, the hyperlane
edges (pairs of node ids) and the owner resolved for each edge. -/
structure GalaxyGraph where
  pos : Nat → Int × Int
  edges : List (Nat × Nat)
  owner : Nat × Nat → String

/-- Lookup in the insertion-ordered owner-to-trace dict. -/
def findTrace (c : String) : List (String × EdgeTrace) → Option EdgeTrace
  | [] => none
  | (d, t) :: rest => if d = c then some t else findTrace c rest

/-- The trace created when an owner is first seen: empty coordinate lists, line
width 1 for `UNCLAIMED` and 8 for any real owner. -/
def freshTrace (c : String) : EdgeTrace :=
  { x := [], y := [], text := [],
    width := if c = UNCLAIMED then 1 else 8,
    color := get_country_color c 1,
    hoverinfo := "text", mode := "lines", showlegend := false }

/-- Append one edge to its owner's trace: both endpoint coordinates followed by
the `None` gap marker, and one text entry. -/
def addEdgeToTrace (g : GalaxyGraph) (e : Nat × Nat) (t : EdgeTrace) : EdgeTrace :=
  { t with
    x := t.x ++ [some (g.pos e.1).1, some (g.pos e.2).1, none],
    y := t.y ++ [some (g.pos e.1).2, some (g.pos e.2).2, none],
    text := t.text ++ [g.owner e] }

/-- Update the (first) entry of the owner dict with the given key. -/
def updateTrace (c : String) (f : EdgeTrace → EdgeTrace) :
    List (String × EdgeTrace) → List (String × EdgeTrace)
  | [] => []
  | (d, t) :: rest =>
    if d = c then (d, f t) :: rest else (d, t) :: updateTrace c f rest

/-- The edge loop of `get_galaxy`: for each edge, create its owner's trace on
first sight, then append the edge's coordinates and gap marker to it. -/
def edgeTracesGo (g : GalaxyGraph) (acc : List (String × EdgeTrace)) :
    List (Nat × Nat) → List (String × EdgeTrace)
  | [] => acc
  | e :: rest =>
    match findTrace (g.owner e) acc with
    | some _ =>
      edgeTracesGo g (updateTrace (g.owner e) (addEdgeToTrace g e) acc) rest
    | none =>
      edgeTracesGo g
        (updateTrace (g.owner e) (addEdgeToTrace g e)
          (acc ++ [(g.owner e, freshTrace (g.owner e))])) rest

/-- The owner-keyed edge traces `get_galaxy` builds (`edge_traces_data`). -/
def get_galaxy_edge_traces (g : GalaxyGraph) : List (String × EdgeTrace) :=
  edgeTracesGo g [] g.edges

/-- The x-coordinate contribution of one edge: both endpoints then the gap. -/
def edgeSegX (g : GalaxyGraph) (e : Nat × Nat) : List (Option Int) :=
  [some (g.pos e.1).1, some (g.pos e.2).1, none]

/-- The y-coordinate contribution of one edge. -/
def edgeSegY (g : GalaxyGraph) (e : Nat × Nat) : List (Option Int) :=
  [some (g.pos e.1).2, some (g.pos e.2).2, none]

/-- The edges owned by a given country, in source order. -/
def ownedEdges (g : GalaxyGraph) (c : String) : List (Nat × Nat) :=
  g.edges.filter (fun e => g.owner e = c)

/-- Concatenated x-segments of a list of edges. -/
def segsX (g : GalaxyGraph) : List (Nat × Nat) → List (Option Int)
  | [] => []
  | e :: rest => edgeSegX g e ++ segsX g rest

/-- Concatenated y-segments of a list of edges. -/
def segsY (g : GalaxyGraph) : List (Nat × Nat) → List (Option Int)
  | [] => []
  | e :: rest => edgeSegY g e ++ segsY g rest

/-- Folding a list of edges into a trace. -/
def extendTrace (g : GalaxyGraph) (t : EdgeTrace) (es : List (Nat × Nat)) : EdgeTrace :=
  es.foldl (fun t e => addEdgeToTrace g e t) t

/-! ## Theorems -/

/-- A concrete event used by witnesses. -/
def sampleEvent : HistoricalEvent :=
  { country := 1, event_type := "war", start_date_days := 5, end_date_days := some 9,
    war := none, leader := none, system := none, planet := none, faction := none,
    target_country := none, is_known_to_player := true, description := "something" }

/-- The filter built from date bounds `[0, 10]` with every other dimension unset. -/
def sampleDateFilter : EventFilter :=
  { min_date := FDate.fin 0, max_date := FDate.fin 10, country_filter := none,
    type_filter := none, war_filter := none, leader_filter := none,
    system_filter := none, planet_filter := none, faction_filter := none }

/-- C5: an `EventFilter` constructed with all entity filters unset and finite
date bounds `a` (min) and `b` (max) includes an event exactly when
`a ≤ start_date_days ≤ b`. -/
theorem claim_C5_date_only_filter (a b : Int) (e : HistoricalEvent) (f : EventFilter)
    (h : mkEventFilter (FDate.fin a) (FDate.fin b) none none none none none none none
        = Except.ok f) :
    f.include_event e = true ↔ a ≤ e.start_date_days ∧ e.start_date_days ≤ b := by
  have hf : f =
      { min_date := FDate.fin a, max_date := FDate.fin b, country_filter := none,
        type_filter := none, war_filter := none, leader_filter := none,
        system_filter := none, planet_filter := none, faction_filter := none } := by
    simpa [mkEventFilter, coerceId, Bind.bind, Except.bind, eq_comm] using h
  subst hf
  simp [EventFilter.include_event, FDate.leDay, FDate.dayLe, Option.elim]

/-- Witness for C5: with bounds `[0, 10]` the sample event (day 5) is included. -/
theorem claim_C5_witness :
    sampleDateFilter.include_event sampleEvent = true
      ↔ 0 ≤ sampleEvent.start_date_days ∧ sampleEvent.start_date_days ≤ 10 :=
  claim_C5_date_only_filter 0 10 sampleEvent sampleDateFilter rfl

/-- Counterexample to C6 as stated: `"not numeric"` cannot be coerced to an
integer id, yet constructing an `EventFilter` that provides it as the type
filter succeeds - the source assigns `type_filter` without coercion, so the
construction does not fail fast there. -/
theorem claim_C6_counterexample :
    pyInt "not numeric" = none
      ∧ exceptOk (mkEventFilter FDate.negInf FDate.posInf none (some "not numeric")
          none none none none none) = true :=
  ⟨rfl, rfl⟩

/-- C6 as amended: a provided value that `int(...)` cannot parse makes
construction fail fast (a `ValueError`, not a dedicated `InvalidFilterValue`)
for each of the six coerced filters - country, war, leader, system, planet,
faction - while a provided type filter is stored uncoerced and never fails. -/
theorem claim_C6_coercion_failure (s t : String) (hs : pyInt s = none) :
    exceptOk (mkEventFilter FDate.negInf FDate.posInf (some s) none none none none
        none none) = false
      ∧ exceptOk (mkEventFilter FDate.negInf FDate.posInf none none (some s) none none
        none none) = false
      ∧ exceptOk (mkEventFilter FDate.negInf FDate.posInf none none none (some s) none
        none none) = false
      ∧ exceptOk (mkEventFilter FDate.negInf FDate.posInf none none none none (some s)
        none none) = false
      ∧ exceptOk (mkEventFilter FDate.negInf FDate.posInf none none none none none
        (some s) none) = false
      ∧ exceptOk (mkEventFilter FDate.negInf FDate.posInf none none none none none none
        (some s)) = false
      ∧ exceptOk (mkEventFilter FDate.negInf FDate.posInf none (some t) none none none
        none none) = true := by
  refine ⟨?_, ?_, ?_, ?_, ?_, ?_, ?_⟩ <;>
    simp [mkEventFilter, coerceId, hs, exceptOk, Bind.bind, Except.bind]

/-- Witness for C6's amended claim at `s = "abc"`, `t = "xyz"`. -/
theorem claim_C6_witness :
    exceptOk (mkEventFilter FDate.negInf FDate.posInf (some "abc") none none none none
        none none) = false
      ∧ exceptOk (mkEventFilter FDate.negInf FDate.posInf none none (some "abc") none
        none none none) = false
      ∧ exceptOk (mkEventFilter FDate.negInf FDate.posInf none none none (some "abc")
        none none none) = false
      ∧ exceptOk (mkEventFilter FDate.negInf FDate.posInf none none none none
        (some "abc") none none) = false
      ∧ exceptOk (mkEventFilter FDate.negInf FDate.posInf none none none none none
        (some "abc") none) = false
      ∧ exceptOk (mkEventFilter FDate.negInf FDate.posInf none none none none none none
        (some "abc")) = false
      ∧ exceptOk (mkEventFilter FDate.negInf FDate.posInf none (some "xyz") none none
        none none none) = true :=
  claim_C6_coercion_failure "abc" "xyz" rfl

/-- C7: with back-dating disabled, a surviving event that starts before day 0
is projected with both displayed dates forced to day 0, and the store's event
records pass through the builder unmodified. -/
theorem claim_C7_backdating_forces_day_zero (se : Bool) (fl : Option EventFilter)
    (evs : List HistoricalEvent) (e : HistoricalEvent) (hmem : e ∈ evs)
    (hvis : eventVisible se fl e = true) (hneg : e.start_date_days < 0) :
    (projectEvent false e).start_date = some (days_to_date 0)
      ∧ (projectEvent false e).end_date = some (days_to_date 0)
      ∧ projectEvent false e ∈ (get_event_dicts se false fl evs).1
      ∧ (get_event_dicts se false fl evs).2 = evs := by
  refine ⟨?_, ?_, ?_, rfl⟩
  · simp [projectEvent, hneg]
  · simp [projectEvent, hneg]
  · exact List.mem_filterMap.mpr ⟨e, hmem, by simp [processEvent, hvis]⟩

/-- A pre-game event (day -30) used by the C7 witness. -/
def backdatedEvent : HistoricalEvent :=
  { country := 2, event_type := "colonization", start_date_days := -30,
    end_date_days := none, war := none, leader := none, system := none,
    planet := none, faction := none, target_country := none,
    is_known_to_player := true, description := "early colony" }

/-- Witness for C7: the day `-30` event is rendered at day 0 front and back,
and the record list comes back unchanged. -/
theorem claim_C7_witness :
    (projectEvent false backdatedEvent).start_date = some (days_to_date 0)
      ∧ (projectEvent false backdatedEvent).end_date = some (days_to_date 0)
      ∧ projectEvent false backdatedEvent
          ∈ (get_event_dicts true false none [backdatedEvent]).1
      ∧ (get_event_dicts true false none [backdatedEvent]).2 = [backdatedEvent] :=
  claim_C7_backdating_forces_day_zero true none [backdatedEvent] backdatedEvent
    (List.mem_singleton.mpr rfl) rfl (by decide)

/-- With the show-everything override active, no war is suppressed. -/
theorem get_war_dicts_show_all (cur : Int) (l : List War) :
    get_war_dicts true cur l = l.map (mkWarDict cur) := by
  induction l with
  | nil => rfl
  | cons w rest ih => simp [get_war_dicts, ih]

/-- Without the override, every produced summary's war is visible. -/
theorem get_war_dicts_war_visible (cur : Int) (l : List War) (d : WarDict)
    (hd : d ∈ get_war_dicts false cur l) : warVisible d.war = true := by
  induction l with
  | nil => simp [get_war_dicts] at hd
  | cons w rest ih =>
    rw [get_war_dicts] at hd
    by_cases hv : warVisible w = true
    · rw [show (!false && !warVisible w) = false by rw [hv]; rfl] at hd
      rw [if_neg (by decide)] at hd
      rcases List.mem_cons.mp hd with h | h
      · subst h; exact hv
      · exact ih h
    · rw [Bool.not_eq_true] at hv
      rw [show (!false && !warVisible w) = true by rw [hv]; rfl] at hd
      rw [if_pos rfl] at hd
      exact ih hd

/-- C3: a war none of whose participants' countries has a recorded first
contact is omitted from `get_war_dicts` unless the show-everything override is
active, and with the override active every war is included. -/
theorem claim_C3_war_visibility_gate (se : Bool) (cur : Int) (wars : List War)
    (w : War) (hmem : w ∈ wars) :
    ((∀ wp ∈ w.participants, wp.country.first_player_contact_date = none) →
        se = false → ∀ d ∈ get_war_dicts se cur wars, d.war ≠ w)
      ∧ (se = true → ∃ d ∈ get_war_dicts se cur wars, d.war = w) := by
  constructor
  · intro hnc hse d hd hdw
    subst hse
    have hv : warVisible w = false := by
      rw [warVisible, List.any_eq_false]
      intro wp hwp
      rw [hnc wp hwp]
      simp
    have h2 := get_war_dicts_war_visible cur wars d hd
    rw [hdw, hv] at h2
    exact absurd h2 (by decide)
  · intro hse
    subst hse
    rw [get_war_dicts_show_all]
    exact ⟨mkWarDict cur w, List.mem_map_of_mem (mkWarDict cur) hmem, rfl⟩

/-- A war whose only participant's country has no first-contact date. -/
def hiddenWar : War :=
  { start_date_days := 100, end_date_days := none,
    participants :=
      [{ country := { country_name := "A", first_player_contact_date := none },
         is_attacker := true }],
    combat := [] }

/-- Witness for C3: the contactless war is absent without the override and
present with it. -/
theorem claim_C3_witness :
    (∀ d ∈ get_war_dicts false 5 [hiddenWar], d.war ≠ hiddenWar)
      ∧ ∃ d ∈ get_war_dicts true 5 [hiddenWar], d.war = hiddenWar :=
  ⟨(claim_C3_war_visibility_gate false 5 [hiddenWar] hiddenWar
      (List.mem_singleton.mpr rfl)).1 (by decide) rfl,
    (claim_C3_war_visibility_gate true 5 [hiddenWar] hiddenWar
      (List.mem_singleton.mpr rfl)).2 rfl⟩

/-- Removing an all-zero series anywhere in the consumed sequence leaves the
line-style output unchanged. -/
theorem lineCore_skip (pre post : List Series) (s : Series) (hz : pyAny s.y = false) :
    lineCore (pre ++ s :: post) = lineCore (pre ++ post) := by
  induction pre with
  | nil => simp [lineCore, hz]
  | cons t rest ih => by_cases ht : pyAny t.y = true <;> simp [lineCore, ht, ih]

/-- Removing an all-zero series anywhere in the consumed sequence leaves the
stacked-style output unchanged, whatever the accumulator state. -/
theorem stackedGo_skip (pre post : List Series) (s : Series) (hz : pyAny s.y = false) :
    ∀ yp : Option (List Q), stackedGo yp (pre ++ s :: post) = stackedGo yp (pre ++ post) := by
  induction pre with
  | nil => intro yp; simp [stackedGo, hz]
  | cons t rest ih =>
    intro yp
    by_cases ht : pyAny t.y = true <;> simp [stackedGo, ht, ih]

/-- Removing an all-zero series anywhere in the consumed sequence leaves the
budget loop unchanged, whatever the accumulator state. -/
theorem budgetAux_skip (pre post : List Series) (s : Series) (hz : pyAny s.y = false) :
    ∀ (st : Option BState) (acc : List PlotLine),
      budgetAux st acc (pre ++ s :: post) = budgetAux st acc (pre ++ post) := by
  induction pre with
  | nil => intro st acc; simp [budgetAux, hz]
  | cons t rest ih =>
    intro st acc
    by_cases ht : pyAny t.y = true <;> simp [budgetAux, ht, ih]

/-- C8: in each of the three styles, an input series whose y-values are all
zero contributes nothing - the output equals the output on the sequence with
that series removed, so it never appears in any style's output list. -/
theorem claim_C8_all_zero_series_dropped (pre post : List Series) (s : Series)
    (hz : pyAny s.y = false) :
    lineCore (pre ++ s :: post) = lineCore (pre ++ post)
      ∧ stackedCore (pre ++ s :: post) = stackedCore (pre ++ post)
      ∧ budgetCoreW (pre ++ s :: post) = budgetCoreW (pre ++ post) := by
  refine ⟨lineCore_skip pre post s hz, ?_, ?_⟩
  · rw [stackedCore, stackedCore, stackedGo_skip pre post s hz]
  · unfold budgetCoreW
    rw [budgetAux_skip pre post s hz]

/-- Series used by the chart witnesses. -/
def seriesA : Series := { key := "A", x := [0, 1, 2], y := [1, 2, 3] }

/-- A second witness series. -/
def seriesB : Series := { key := "B", x := [0, 1, 2], y := [2, 1, 1] }

/-- An all-zero witness series. -/
def seriesZ : Series := { key := "Z", x := [0, 1, 2], y := [0, 0, 0] }

/-- Witness for C8 at a concrete dataset containing the all-zero `seriesZ`. -/
theorem claim_C8_witness :
    lineCore ([seriesB] ++ seriesZ :: [seriesA]) = lineCore ([seriesB] ++ [seriesA])
      ∧ stackedCore ([seriesB] ++ seriesZ :: [seriesA])
          = stackedCore ([seriesB] ++ [seriesA])
      ∧ budgetCoreW ([seriesB] ++ seriesZ :: [seriesA])
          = budgetCoreW ([seriesB] ++ [seriesA]) :=
  claim_C8_all_zero_series_dropped [seriesB] [seriesA] seriesZ rfl

/-- The budget loop leaves the accumulator state unset only if it emitted no
line: the state is initialised by the first surviving series, which also emits. -/
theorem budgetAux_none_state (l : List Series) :
    ∀ (st : Option BState) (acc a : List PlotLine) (w : Bool),
      budgetAux st acc l = some (a, none, w) → st = none ∧ a = acc := by
  induction l with
  | nil =>
    intro st acc a w h
    rw [budgetAux] at h
    injection h with h
    injection h with h1 h
    injection h with h2 h3
    exact ⟨h2, h1.symm⟩
  | cons t rest ih =>
    intro st acc a w h
    rw [budgetAux] at h
    by_cases hta : pyAny t.y = true
    · rw [if_pos hta] at h
      by_cases h1 : t.y.all (fun v => v ≤ 0) = true
      · rw [if_pos h1] at h
        split at h
        · exact absurd (ih _ _ _ _ h).1 (Option.some_ne_none _)
        · exact absurd h (by simp)
      · rw [if_neg h1] at h
        by_cases h2 : t.y.all (fun v => 0 ≤ v) = true
        · rw [if_pos h2] at h
          split at h
          · exact absurd (ih _ _ _ _ h).1 (Option.some_ne_none _)
          · exact absurd h (by simp)
        · rw [if_neg h2] at h
          injection h with h
          injection h with h1 h
          injection h with h2 h3
          exact absurd h2 (Option.some_ne_none _)
    · rw [if_neg hta] at h
      exact ih _ _ _ _ h

/-- Hitting a mixed-sign series breaks the budget loop: the result is whatever
the prefix produced, with the state defaulted (the mixed series still
initialises the accumulators if it is the first survivor) and the warned flag
set; everything after the mixed series is ignored. -/
theorem budgetAux_break (m : Series) (post : List Series)
    (hm1 : m.y.all (fun v => v ≤ 0) = false) (hm2 : m.y.all (fun v => 0 ≤ v) = false)
    (hany : pyAny m.y = true) :
    ∀ pre : List Series,
      (∀ t ∈ pre, t.y.all (fun v => v ≤ 0) = true ∨ t.y.all (fun v => 0 ≤ v) = true) →
      ∀ (st : Option BState) (acc : List PlotLine),
        budgetAux st acc (pre ++ m :: post)
          = match budgetAux st acc pre with
            | none => none
            | some (a, s, _) => some (a, some (s.getD (freshBState m)), true) := by
  intro pre
  induction pre with
  | nil =>
    intro _ st acc
    simp [budgetAux, hany, hm1, hm2]
  | cons t rest ih =>
    intro hpre st acc
    have hrest := fun u hu => hpre u (List.mem_cons_of_mem t hu)
    have ht := hpre t (List.mem_cons_self t rest)
    rw [List.cons_append, budgetAux]
    conv_rhs => rw [budgetAux]
    by_cases hta : pyAny t.y = true
    · rw [if_pos hta, if_pos hta]
      by_cases h1 : t.y.all (fun v => v ≤ 0) = true
      · rw [if_pos h1, if_pos h1]
        split
        · exact ih hrest _ _
        · rfl
      · have h2 : t.y.all (fun v => 0 ≤ v) = true := ht.resolve_left h1
        rw [if_neg h1, if_neg h1, if_pos h2, if_pos h2]
        split
        · exact ih hrest _ _
        · rfl
    · rw [if_neg hta, if_neg hta]
      exact ih hrest st acc

/-- C4: a mixed-sign series (some strictly positive and some strictly negative
value) aborts budget processing with the warning flag set: the output is
exactly the output for the series before it - those already-processed lines
plus a net-gain line reflecting only them - and the mixed series and every
series after it contribute nothing. -/
theorem claim_C4_budget_mixed_sign_aborts (pre post : List Series) (m : Series)
    (hp : ∃ v ∈ m.y, 0 < v) (hn : ∃ v ∈ m.y, v < 0)
    (hpre : ∀ t ∈ pre,
      t.y.all (fun v => v ≤ 0) = true ∨ t.y.all (fun v => 0 ≤ v) = true) :
    budgetCoreW (pre ++ m :: post) = (budgetCoreW pre).map (fun p => (p.1, true)) := by
  obtain ⟨v, hv, hv0⟩ := hp
  obtain ⟨u, hu, hu0⟩ := hn
  have hm1 : m.y.all (fun w => w ≤ 0) = false := by
    rw [List.all_eq_false]
    exact ⟨v, hv, by simpa using not_le.mpr hv0⟩
  have hm2 : m.y.all (fun w => 0 ≤ w) = false := by
    rw [List.all_eq_false]
    exact ⟨u, hu, by simpa using not_le.mpr hu0⟩
  have hany : pyAny m.y = true := by
    rw [pyAny, List.any_eq_true]
    exact ⟨v, hv, by simpa using ne_of_gt hv0⟩
  have hb := budgetAux_break m post hm1 hm2 hany pre hpre none []
  unfold budgetCoreW
  rw [hb]
  cases hres : budgetAux none [] pre with
  | none => rfl
  | some r =>
    obtain ⟨a, s, w⟩ := r
    cases ha : a.reverse with
    | nil => cases s <;> simp [ha]
    | cons p ps =>
      cases s with
      | none =>
        obtain ⟨-, h2⟩ := budgetAux_none_state pre none [] a w hres
        subst h2
        simp at ha
      | some stf => simp [ha]

/-- The mixed-sign series of the spec's own budget example. -/
def seriesM : Series := { key := "M", x := [0, 1, 2], y := [1, -1, 2] }

/-- Witness for C4: with `seriesA` processed first, the mixed `seriesM` aborts
and `seriesB` after it is ignored. -/
theorem claim_C4_witness :
    budgetCoreW ([seriesA] ++ seriesM :: [seriesB])
      = (budgetCoreW [seriesA]).map (fun p => (p.1, true)) :=
  claim_C4_budget_mixed_sign_aborts [seriesA] [seriesB] seriesM
    (by decide) (by decide) (by decide)

/-- The pointwise sum of a family of aligned length-`n` value lists. -/
def pointwiseSum (n : Nat) (ls : List (List Q)) : List Q :=
  (List.range n).map (fun i => (ls.map (fun ys => ys.getD i 0)).sum)

/-- A series with some nonzero value has a nonempty y-list. -/
theorem pyAny_ne_nil {ys : List Q} (h : pyAny ys = true) : ys ≠ [] := by
  rintro rfl
  simp [pyAny] at h

/-- `getD` distributes over pointwise addition inside the common range. -/
theorem getD_zipWith_add (a b : List Q) (i : Nat) (ha : i < a.length)
    (hb : i < b.length) :
    (List.zipWith (· + ·) a b).getD i 0 = a.getD i 0 + b.getD i 0 := by
  have hz : i < (List.zipWith (· + ·) a b).length := by
    rw [List.length_zipWith]
    omega
  rw [List.getD_eq_getElem _ _ hz, List.getD_eq_getElem _ _ ha,
    List.getD_eq_getElem _ _ hb, List.getElem_zipWith]

/-- Folding pointwise addition over aligned lists computes the positional sums. -/
theorem filter_surv_cons_pos (s : Series) (rest : List Series)
    (hs : pyAny s.y = true) :
    (s :: rest).filter (fun t => pyAny t.y) = s :: rest.filter (fun t => pyAny t.y) := by
  simp [List.filter_cons, hs]

/-- Filtering the surviving series drops a skipped head. -/
theorem filter_surv_cons_neg (s : Series) (rest : List Series)
    (hs : ¬pyAny s.y = true) :
    (s :: rest).filter (fun t => pyAny t.y) = rest.filter (fun t => pyAny t.y) := by
  simp [List.filter_cons, hs]

/-- Folding pointwise addition over aligned series computes positional sums. -/
theorem foldl_zipWith_eq_sums (n : Nat) :
    ∀ (ls : List Series) (acc : List Q), acc.length = n →
      (∀ s ∈ ls, s.y.length = n) →
      ls.foldl (fun a s => List.zipWith (· + ·) a s.y) acc
        = (List.range n).map
            (fun i => acc.getD i 0 + (ls.map (fun s => s.y.getD i 0)).sum) := by
  intro ls
  induction ls with
  | nil =>
    intro acc hl _
    simp only [List.foldl_nil, List.map_nil, List.sum_nil, add_zero]
    apply List.ext_getElem
    · rw [List.length_map, List.length_range, hl]
    · intro i h1 h2
      rw [List.getElem_map, List.getElem_range, List.getD_eq_getElem _ _ h1]
  | cons y ys ih =>
    intro acc hl hall
    have hy : y.y.length = n := hall y (List.mem_cons_self y ys)
    rw [List.foldl_cons,
      ih (List.zipWith (· + ·) acc y.y)
        (by rw [List.length_zipWith, hl, hy, min_self])
        (fun z hz => hall z (List.mem_cons_of_mem y hz))]
    apply List.map_congr_left
    intro i hi
    rw [List.mem_range] at hi
    rw [getD_zipWith_add acc y.y i (by omega) (by omega), List.map_cons,
      List.sum_cons, add_assoc]

/-- A sequence with no surviving series produces no stacked lines. -/
theorem stackedGo_no_survivors :
    ∀ (l : List Series) (yp : Option (List Q)),
      l.filter (fun s => pyAny s.y) = [] → stackedGo yp l = [] := by
  intro l
  induction l with
  | nil => intro yp _; rfl
  | cons s rest ih =>
    intro yp hf
    by_cases hs : pyAny s.y = true
    · rw [filter_surv_cons_pos s rest hs] at hf
      exact absurd hf (by simp)
    · rw [filter_surv_cons_neg s rest hs] at hf
      rw [stackedGo, if_neg hs]
      exact ih yp hf

/-- The last stacked line carries the running sum of every surviving series\'
y-values folded into the incoming accumulator. -/
theorem stackedGo_last (n : Nat) (hn : 0 < n) :
    ∀ (l : List Series) (yp : List Q), yp.length = n →
      (∀ s ∈ l, pyAny s.y = true → s.y.length = n) →
      l.filter (fun s => pyAny s.y) ≠ [] →
      (stackedGo (some yp) l).getLast?.map (fun pl => pl.y)
        = some ((l.filter (fun s => pyAny s.y)).foldl
            (fun a s => List.zipWith (· + ·) a s.y) yp) := by
  intro l
  induction l with
  | nil => intro yp _ _ hne; exact absurd rfl hne
  | cons s rest ih =>
    intro yp hyp hall hne
    by_cases hs : pyAny s.y = true
    · have hsn : s.y.length = n := hall s (List.mem_cons_self s rest) hs
      have hynew : (List.zipWith (· + ·) yp s.y).length = n := by
        rw [List.length_zipWith, hyp, hsn, min_self]
      have hnonempty : ¬(List.zipWith (· + ·) yp s.y).isEmpty = true := by
        intro h
        rw [List.isEmpty_iff] at h
        rw [h, List.length_nil] at hynew
        omega
      rw [stackedGo, if_pos hs]
      simp only [Option.getD_some]
      rw [if_neg hnonempty, filter_surv_cons_pos s rest hs, List.foldl_cons]
      by_cases hr : rest.filter (fun t => pyAny t.y) = []
      · rw [stackedGo_no_survivors rest _ hr, hr, List.foldl_nil]
        rfl
      · have hrec := ih (List.zipWith (· + ·) yp s.y) hynew
          (fun t ht h => hall t (List.mem_cons_of_mem s ht) h) hr
        have hne2 : stackedGo (some (List.zipWith (· + ·) yp s.y)) rest ≠ [] := by
          intro h
          rw [h] at hrec
          simp at hrec
        obtain ⟨q, qs, hq⟩ := List.exists_cons_of_ne_nil hne2
        rw [hq, List.getLast?_cons_cons, ← hq, hrec]
    · rw [stackedGo, if_neg hs, filter_surv_cons_neg s rest hs]
      exact ih yp hyp (fun t ht h => hall t (List.mem_cons_of_mem s ht) h)
        (by rwa [filter_surv_cons_neg s rest hs] at hne)

/-- Same as `stackedGo_last` but from the uninitialised accumulator: the first
surviving series initialises it to zeros of its own x-length. -/
theorem stackedGo_last_none (n : Nat) (hn : 0 < n) :
    ∀ l : List Series,
      (∀ s ∈ l, pyAny s.y = true → s.x.length = n ∧ s.y.length = n) →
      l.filter (fun s => pyAny s.y) ≠ [] →
      (stackedGo none l).getLast?.map (fun pl => pl.y)
        = some ((l.filter (fun s => pyAny s.y)).foldl
            (fun a s => List.zipWith (· + ·) a s.y) (List.replicate n 0)) := by
  intro l
  induction l with
  | nil => intro _ hne; exact absurd rfl hne
  | cons s rest ih =>
    intro hall hne
    by_cases hs : pyAny s.y = true
    · have hx : s.x.map (fun _ => (0 : Q)) = List.replicate n 0 := by
        rw [List.map_const', (hall s (List.mem_cons_self s rest) hs).1]
      have hstep : stackedGo none (s :: rest) =
          stackedGo (some (List.replicate n 0)) (s :: rest) := by
        rw [stackedGo, stackedGo, if_pos hs, if_pos hs]
        simp only [Option.getD_none, Option.getD_some, hx]
      rw [hstep]
      exact stackedGo_last n hn (s :: rest) (List.replicate n 0)
        (List.length_replicate n 0) (fun t ht h => (hall t ht h).2) hne
    · rw [stackedGo, if_neg hs, filter_surv_cons_neg s rest hs]
      exact ih (fun t ht h => hall t (List.mem_cons_of_mem s ht) h)
        (by rwa [filter_surv_cons_neg s rest hs] at hne)

/-- C1: in stacked mode, whenever the surviving (not-all-zero) series are
aligned at a common length `n`, the last output line\'s y-values are the
pointwise sum of every surviving input series\' y-values: the full stack height
is the total. -/
theorem claim_C1_stacked_last_is_total (l : List Series) (n : Nat)
    (hall : ∀ s ∈ l, pyAny s.y = true → s.x.length = n ∧ s.y.length = n)
    (hex : ∃ s ∈ l, pyAny s.y = true) :
    (stackedCore l).getLast?.map (fun pl => pl.y)
      = some (pointwiseSum n ((l.filter (fun s => pyAny s.y)).map (fun s => s.y))) := by
  obtain ⟨s0, hs0m, hs0⟩ := hex
  have hn : 0 < n := by
    have h1 := (hall s0 hs0m hs0).2
    have h2 := pyAny_ne_nil hs0
    rw [← List.length_pos] at h2
    omega
  have hne : l.filter (fun s => pyAny s.y) ≠ [] := by
    intro h
    have hm : s0 ∈ l.filter (fun s => pyAny s.y) := List.mem_filter.mpr ⟨hs0m, hs0⟩
    rw [h] at hm
    exact absurd hm (List.not_mem_nil s0)
  rw [stackedCore, stackedGo_last_none n hn l hall hne]
  congr 1
  rw [foldl_zipWith_eq_sums n _ _ (List.length_replicate n 0)
    (fun t ht => (hall t (List.mem_filter.mp ht).1 (List.mem_filter.mp ht).2).2)]
  simp only [pointwiseSum, List.map_map]
  apply List.map_congr_left
  intro i hi
  have hrep : (List.replicate n (0 : Q)).getD i 0 = 0 := by
    rcases lt_or_ge i n with h | h
    · rw [List.getD_eq_getElem _ _ (by simpa using h), List.getElem_replicate]
    · rw [List.getD_eq_default]
      rw [List.length_replicate]
      exact h
  rw [hrep, zero_add]
  exact congrArg List.sum (List.map_congr_left (fun t _ => rfl))

/-- Witness for C1 at a three-series dataset (one all-zero). -/
theorem claim_C1_witness :
    (stackedCore [seriesB, seriesZ, seriesA]).getLast?.map (fun pl => pl.y)
      = some (pointwiseSum 3
          (([seriesB, seriesZ, seriesA].filter (fun s => pyAny s.y)).map
            (fun s => s.y))) :=
  claim_C1_stacked_last_is_total [seriesB, seriesZ, seriesA] 3 (by decide)
    ⟨seriesA, by decide⟩

/-- The stacked output names the surviving series in consumed order: one line
per surviving series, in the order the iterator yields them. -/
theorem stackedGo_names :
    ∀ (l : List Series) (yp : Option (List Q)),
      (∀ v, yp = some v → v ≠ []) →
      (∀ s ∈ l, s.x.length = s.y.length) →
      (stackedGo yp l).map (fun pl => pl.name)
        = (l.filter (fun s => pyAny s.y)).map (fun s => s.key) := by
  intro l
  induction l with
  | nil => intro yp _ _; rfl
  | cons s rest ih =>
    intro yp hyp hall
    have hall' := fun t ht => hall t (List.mem_cons_of_mem s ht)
    by_cases hs : pyAny s.y = true
    · have hylen : 0 < s.y.length := List.length_pos.mpr (pyAny_ne_nil hs)
      have hyplen : 0 < (yp.getD (s.x.map (fun _ => (0 : Q)))).length := by
        cases yp with
        | none =>
          simp only [Option.getD_none, List.length_map]
          rw [hall s (List.mem_cons_self s rest)]
          exact hylen
        | some v =>
          simp only [Option.getD_some]
          exact List.length_pos.mpr (hyp v rfl)
      have hne : ¬(List.zipWith (· + ·) (yp.getD (s.x.map (fun _ => 0))) s.y).isEmpty
          = true := by
        intro h
        rw [List.isEmpty_iff] at h
        have h2 := congrArg List.length h
        rw [List.length_zipWith, List.length_nil] at h2
        omega
      rw [stackedGo, if_pos hs]
      simp only [Option.getD_some, Option.getD_none]
      rw [if_neg hne, filter_surv_cons_pos s rest hs, List.map_cons, List.map_cons]
      exact congrArg (List.cons s.key)
        (ih _ (fun v hv => by
          injection hv with hv
          subst hv
          intro hnil
          exact hne (by rw [hnil]; rfl)) hall')
    · rw [stackedGo, if_neg hs, filter_surv_cons_neg s rest hs]
      exact ih yp hyp hall'

/-- C2 as amended: `_get_stacked_plot_data` consumes `iterate_data`'s default
sequence (not the descending-final-value one used by the line and budget
styles), so the output series appear bottom-to-top in the default iteration
order of the surviving series. -/
theorem claim_C2_stacked_uses_default_order (pd : EmpireProgressionPlotData)
    (hlen : ∀ s ∈ pd.series, s.x.length = s.y.length) :
    (get_stacked_plot_data pd).map (fun pl => pl.name)
      = ((iterate_data pd).filter (fun s => pyAny s.y)).map (fun s => s.key) := by
  rw [get_stacked_plot_data, stackedCore]
  exact stackedGo_names (iterate_data pd) none (fun v hv => absurd hv (by simp)) hlen

/-- A one-point series with final value 2. -/
def seriesA1 : Series := { key := "a", x := [0], y := [2] }

/-- A one-point series with final value 1. -/
def seriesB1 : Series := { key := "b", x := [0], y := [1] }

/-- A dataset whose stored order `[b, a]` is ascending in final value. -/
def pdC2 : EmpireProgressionPlotData := { series := [seriesB1, seriesA1] }

/-- Counterexample to C2 as stated: on `pdC2` the stacked output is `b` then
`a` bottom-to-top although `b`'s final y-value is the smaller one - the series
were not consumed in descending-final-value order, and the output differs from
what consuming the sorted sequence would give. -/
theorem claim_C2_counterexample :
    (get_stacked_plot_data pdC2).map (fun pl => pl.name) = ["b", "a"]
      ∧ lastVal seriesB1 < lastVal seriesA1
      ∧ (get_stacked_plot_data pdC2).map (fun pl => pl.name)
          ≠ ((data_sorted_by_last_value pdC2).filter (fun s => pyAny s.y)).map
              (fun s => s.key) := by
  refine ⟨rfl, by decide, by decide⟩

/-- Witness for C2's amended claim at the concrete dataset `pdC2`. -/
theorem claim_C2_witness :
    (get_stacked_plot_data pdC2).map (fun pl => pl.name)
      = ((iterate_data pdC2).filter (fun s => pyAny s.y)).map (fun s => s.key) :=
  claim_C2_stacked_uses_default_order pdC2 (by decide)

/-- The in-place accumulation never changes an accumulator's length. -/
theorem length_bumpList (acc ys : List Q) : (bumpList acc ys).length = acc.length := by
  rw [bumpList, List.length_append, List.length_zipWith, List.length_drop]
  omega

/-- The length the budget accumulators are initialised with: the x-length of
the first surviving (not-all-zero) series, 0 when none survives. -/
def firstSurvLen : List Series → Nat
  | [] => 0
  | s :: rest => if pyAny s.y then s.x.length else firstSurvLen rest

/-- With accumulators of length `n` and every surviving y-list at most `n`
long, the budget loop never raises. -/
theorem budgetAux_isSome_of_some (n : Nat) :
    ∀ (l : List Series) (st : BState) (acc : List PlotLine),
      st.netGain.length = n → st.yPos.length = n → st.yNeg.length = n →
      (∀ t ∈ l, pyAny t.y = true → t.y.length ≤ n) →
      (budgetAux (some st) acc l).isSome = true := by
  intro l
  induction l with
  | nil => intro st acc _ _ _ _; rfl
  | cons t rest ih =>
    intro st acc hng hpos hneg hall
    have hrest := fun u hu h => hall u (List.mem_cons_of_mem t hu) h
    rw [budgetAux]
    by_cases hta : pyAny t.y = true
    · rw [if_pos hta]
      simp only [Option.getD_some]
      have hlen : t.y.length ≤ n := hall t (List.mem_cons_self t rest) hta
      by_cases h1 : t.y.all (fun v => v ≤ 0) = true
      · rw [if_pos h1, if_pos ⟨by rw [hneg]; exact hlen, by rw [hng]; exact hlen⟩]
        exact ih _ _ (by simpa [length_bumpList] using hng) hpos
          (by simpa [length_bumpList] using hneg) hrest
      · rw [if_neg h1]
        by_cases h2 : t.y.all (fun v => 0 ≤ v) = true
        · rw [if_pos h2, if_pos ⟨by rw [hpos]; exact hlen, by rw [hng]; exact hlen⟩]
          exact ih _ _ (by simpa [length_bumpList] using hng)
            (by simpa [length_bumpList] using hpos) hneg hrest
        · rw [if_neg h2]
          rfl
    · rw [if_neg hta]
      exact ih st acc hng hpos hneg hrest

/-- From the uninitialised state, the budget loop never raises when every
surviving y-list is at most the first survivor's x-length. -/
theorem budgetAux_isSome_start :
    ∀ (l : List Series) (acc : List PlotLine),
      (∀ t ∈ l, pyAny t.y = true → t.y.length ≤ firstSurvLen l) →
      (budgetAux none acc l).isSome = true := by
  intro l
  induction l with
  | nil => intro acc _; rfl
  | cons t rest ih =>
    intro acc hall
    rw [budgetAux]
    by_cases hta : pyAny t.y = true
    · rw [if_pos hta]
      simp only [Option.getD_none]
      have hn : firstSurvLen (t :: rest) = t.x.length := by
        rw [firstSurvLen, if_pos hta]
      have hlen : t.y.length ≤ t.x.length := by
        rw [← hn]
        exact hall t (List.mem_cons_self t rest) hta
      have hfng : (freshBState t).netGain.length = t.x.length := by
        simp [freshBState]
      have hfpos : (freshBState t).yPos.length = t.x.length := by
        simp [freshBState]
      have hfneg : (freshBState t).yNeg.length = t.x.length := by
        simp [freshBState]
      have hrest : ∀ u ∈ rest, pyAny u.y = true → u.y.length ≤ t.x.length := by
        intro u hu h
        rw [← hn]
        exact hall u (List.mem_cons_of_mem t hu) h
      by_cases h1 : t.y.all (fun v => v ≤ 0) = true
      · rw [if_pos h1, if_pos ⟨by rw [hfneg]; exact hlen, by rw [hfng]; exact hlen⟩]
        exact budgetAux_isSome_of_some t.x.length rest _ _
          (by simpa [length_bumpList] using hfng) hfpos
          (by simpa [length_bumpList] using hfneg) hrest
      · rw [if_neg h1]
        by_cases h2 : t.y.all (fun v => 0 ≤ v) = true
        · rw [if_pos h2, if_pos ⟨by rw [hfpos]; exact hlen, by rw [hfng]; exact hlen⟩]
          exact budgetAux_isSome_of_some t.x.length rest _ _
            (by simpa [length_bumpList] using hfng)
            (by simpa [length_bumpList] using hfpos) hfneg hrest
        · rw [if_neg h2]
          rfl
    · rw [if_neg hta]
      apply ih
      intro u hu h
      have h3 := hall u (List.mem_cons_of_mem t hu) h
      rwa [firstSurvLen, if_neg hta] at h3

/-- Assembling the output cannot fail once the loop has not failed. -/
theorem budgetCoreW_isSome (l : List Series)
    (h : (budgetAux none [] l).isSome = true) : (budgetCoreW l).isSome = true := by
  obtain ⟨r, hr⟩ := Option.isSome_iff_exists.mp h
  obtain ⟨a, s, w⟩ := r
  rw [budgetCoreW, hr]
  cases ha : a.reverse with
  | nil => simp [ha]
  | cons p ps => cases s <;> simp [ha]

/-- With accumulators of length `n`, no mixed-sign series anywhere, and some
surviving y-list strictly longer than `n`, the budget loop raises. -/
theorem budgetAux_overflow_of_some (n : Nat) :
    ∀ (l : List Series) (st : BState) (acc : List PlotLine),
      st.netGain.length = n → st.yPos.length = n → st.yNeg.length = n →
      (∀ t ∈ l, t.y.all (fun v => v ≤ 0) = true ∨ t.y.all (fun v => 0 ≤ v) = true) →
      (∃ t ∈ l, pyAny t.y = true ∧ n < t.y.length) →
      budgetAux (some st) acc l = none := by
  intro l
  induction l with
  | nil =>
    intro st acc _ _ _ _ hex
    obtain ⟨t, ht, -⟩ := hex
    exact absurd ht (List.not_mem_nil t)
  | cons t rest ih =>
    intro st acc hng hpos hneg hnomix hex
    have hnomix' := fun u hu => hnomix u (List.mem_cons_of_mem t hu)
    rw [budgetAux]
    by_cases hta : pyAny t.y = true
    · rw [if_pos hta]
      simp only [Option.getD_some]
      by_cases hover : t.y.length ≤ n
      · have hex' : ∃ u ∈ rest, pyAny u.y = true ∧ n < u.y.length := by
          obtain ⟨u, hu, h1, h2⟩ := hex
          rcases List.mem_cons.mp hu with rfl | hu'
          · omega
          · exact ⟨u, hu', h1, h2⟩
        rcases hnomix t (List.mem_cons_self t rest) with h1 | h1
        · rw [if_pos h1, if_pos ⟨by rw [hneg]; exact hover, by rw [hng]; exact hover⟩]
          exact ih _ _ (by simpa [length_bumpList] using hng) hpos
            (by simpa [length_bumpList] using hneg) hnomix' hex'
        · by_cases h0 : t.y.all (fun v => v ≤ 0) = true
          · rw [if_pos h0, if_pos ⟨by rw [hneg]; exact hover, by rw [hng]; exact hover⟩]
            exact ih _ _ (by simpa [length_bumpList] using hng) hpos
              (by simpa [length_bumpList] using hneg) hnomix' hex'
          · rw [if_neg h0, if_pos h1,
              if_pos ⟨by rw [hpos]; exact hover, by rw [hng]; exact hover⟩]
            exact ih _ _ (by simpa [length_bumpList] using hng)
              (by simpa [length_bumpList] using hpos) hneg hnomix' hex'
      · rcases hnomix t (List.mem_cons_self t rest) with h1 | h1
        · rw [if_pos h1, if_neg (by rw [hneg]; exact fun hc => hover hc.1)]
        · by_cases h0 : t.y.all (fun v => v ≤ 0) = true
          · rw [if_pos h0, if_neg (by rw [hneg]; exact fun hc => hover hc.1)]
          · rw [if_neg h0, if_pos h1,
              if_neg (by rw [hpos]; exact fun hc => hover hc.1)]
    · rw [if_neg hta]
      have hex' : ∃ u ∈ rest, pyAny u.y = true ∧ n < u.y.length := by
        obtain ⟨u, hu, h1, h2⟩ := hex
        rcases List.mem_cons.mp hu with rfl | hu'
        · exact absurd h1 hta
        · exact ⟨u, hu', h1, h2⟩
      exact ih st acc hng hpos hneg hnomix' hex'

/-- From the uninitialised state: no mixed series and some surviving y-list
strictly longer than the first survivor's x-length makes the loop raise. -/
theorem budgetAux_overflow_start :
    ∀ (l : List Series) (acc : List PlotLine),
      (∀ t ∈ l, t.y.all (fun v => v ≤ 0) = true ∨ t.y.all (fun v => 0 ≤ v) = true) →
      (∃ t ∈ l, pyAny t.y = true ∧ firstSurvLen l < t.y.length) →
      budgetAux none acc l = none := by
  intro l
  induction l with
  | nil =>
    intro acc _ hex
    obtain ⟨t, ht, -⟩ := hex
    exact absurd ht (List.not_mem_nil t)
  | cons t rest ih =>
    intro acc hnomix hex
    have hnomix' := fun u hu => hnomix u (List.mem_cons_of_mem t hu)
    rw [budgetAux]
    by_cases hta : pyAny t.y = true
    · rw [if_pos hta]
      simp only [Option.getD_none]
      have hn : firstSurvLen (t :: rest) = t.x.length := by
        rw [firstSurvLen, if_pos hta]
      rw [hn] at hex
      have hfng : (freshBState t).netGain.length = t.x.length := by
        simp [freshBState]
      have hfpos : (freshBState t).yPos.length = t.x.length := by
        simp [freshBState]
      have hfneg : (freshBState t).yNeg.length = t.x.length := by
        simp [freshBState]
      by_cases hover : t.y.length ≤ t.x.length
      · have hex' : ∃ u ∈ rest, pyAny u.y = true ∧ t.x.length < u.y.length := by
          obtain ⟨u, hu, h1, h2⟩ := hex
          rcases List.mem_cons.mp hu with rfl | hu'
          · omega
          · exact ⟨u, hu', h1, h2⟩
        rcases hnomix t (List.mem_cons_self t rest) with h1 | h1
        · rw [if_pos h1, if_pos ⟨by rw [hfneg]; exact hover, by rw [hfng]; exact hover⟩]
          exact budgetAux_overflow_of_some t.x.length rest _ _
            (by simpa [length_bumpList] using hfng) hfpos
            (by simpa [length_bumpList] using hfneg) hnomix' hex'
        · by_cases h0 : t.y.all (fun v => v ≤ 0) = true
          · rw [if_pos h0,
              if_pos ⟨by rw [hfneg]; exact hover, by rw [hfng]; exact hover⟩]
            exact budgetAux_overflow_of_some t.x.length rest _ _
              (by simpa [length_bumpList] using hfng) hfpos
              (by simpa [length_bumpList] using hfneg) hnomix' hex'
          · rw [if_neg h0, if_pos h1,
              if_pos ⟨by rw [hfpos]; exact hover, by rw [hfng]; exact hover⟩]
            exact budgetAux_overflow_of_some t.x.length rest _ _
              (by simpa [length_bumpList] using hfng)
              (by simpa [length_bumpList] using hfpos) hfneg hnomix' hex'
      · rcases hnomix t (List.mem_cons_self t rest) with h1 | h1
        · rw [if_pos h1, if_neg (by rw [hfneg]; exact fun hc => hover hc.1)]
        · by_cases h0 : t.y.all (fun v => v ≤ 0) = true
          · rw [if_pos h0, if_neg (by rw [hfneg]; exact fun hc => hover hc.1)]
          · rw [if_neg h0, if_pos h1,
              if_neg (by rw [hfpos]; exact fun hc => hover hc.1)]
    · rw [if_neg hta]
      apply ih acc hnomix'
      obtain ⟨u, hu, h1, h2⟩ := hex
      rcases List.mem_cons.mp hu with rfl | hu'
      · exact absurd h1 hta
      · rw [firstSurvLen, if_neg hta] at h2
        exact ⟨u, hu', h1, h2⟩

/-- C10: the budget accumulators are sized from the first surviving series'
x-values.  When every surviving series' y-length equals that size the
transform is total (returns a result); and the precondition is necessary -
with no mixed-sign series to break early, a surviving series strictly longer
than the first makes the accumulation index out of range (the modelled
IndexError, `none`). -/
theorem claim_C10_budget_sizing_total_iff (l : List Series)
    (_hxy : ∀ t ∈ l, t.x.length = t.y.length) :
    ((∀ t ∈ l, pyAny t.y = true → t.y.length = firstSurvLen l) →
        (budgetCoreW l).isSome = true)
      ∧ ((∀ t ∈ l, t.y.all (fun v => v ≤ 0) = true ∨ t.y.all (fun v => 0 ≤ v) = true) →
          (∃ t ∈ l, pyAny t.y = true ∧ firstSurvLen l < t.y.length) →
          budgetCoreW l = none) := by
  constructor
  · intro hall
    exact budgetCoreW_isSome l
      (budgetAux_isSome_start l [] (fun t ht h => le_of_eq (hall t ht h)))
  · intro hnomix hex
    rw [budgetCoreW, budgetAux_overflow_start l [] hnomix hex]

/-- A one-point positive series. -/
def seriesP : Series := { key := "p", x := [0], y := [1] }

/-- A two-point positive series, longer than `seriesP`. -/
def seriesL : Series := { key := "l", x := [0, 1], y := [1, 1] }

/-- Witness for C10: aligned series succeed; a longer later series raises. -/
theorem claim_C10_witness :
    (budgetCoreW [seriesB, seriesA]).isSome = true
      ∧ budgetCoreW [seriesP, seriesL] = none :=
  ⟨(claim_C10_budget_sizing_total_iff [seriesB, seriesA] (by decide)).1 (by decide),
    (claim_C10_budget_sizing_total_iff [seriesP, seriesL] (by decide)).2 (by decide)
      (by decide)⟩

/-- Lookup after updating one key: the updated entry under that key, other
keys unchanged. -/
theorem findTrace_update (d : String) (f : EdgeTrace → EdgeTrace) :
    ∀ (l : List (String × EdgeTrace)) (c : String),
      findTrace c (updateTrace d f l)
        = if c = d then (findTrace d l).map f else findTrace c l := by
  intro l
  induction l with
  | nil =>
    intro c
    rw [updateTrace]
    split <;> rfl
  | cons p rest ih =>
    intro c
    obtain ⟨e, t⟩ := p
    by_cases hed : e = d
    · subst hed
      by_cases hce : c = e
      · subst hce
        simp [updateTrace, findTrace]
      · simp [updateTrace, findTrace, hce, Ne.symm hce]
    · by_cases hce : c = e
      · subst hce
        simp [updateTrace, findTrace, hed]
      · simp [updateTrace, findTrace, hed, Ne.symm hce, ih]

/-- Lookup ignores entries appended after a hit. -/
theorem findTrace_append_of_some (c : String) (u : EdgeTrace)
    (l l' : List (String × EdgeTrace)) (h : findTrace c l = some u) :
    findTrace c (l ++ l') = some u := by
  induction l with
  | nil => exact absurd h (by rw [findTrace]; simp)
  | cons p rest ih =>
    obtain ⟨e, t⟩ := p
    rw [findTrace] at h
    rw [List.cons_append, findTrace]
    by_cases he : e = c
    · rw [if_pos he] at h
      rw [if_pos he]
      exact h
    · rw [if_neg he] at h
      rw [if_neg he]
      exact ih h

/-- Lookup falls through to the appended tail when the front misses. -/
theorem findTrace_append_of_none (c : String) (l l' : List (String × EdgeTrace))
    (h : findTrace c l = none) : findTrace c (l ++ l') = findTrace c l' := by
  induction l with
  | nil => rfl
  | cons p rest ih =>
    obtain ⟨e, t⟩ := p
    rw [findTrace] at h
    rw [List.cons_append, findTrace]
    by_cases he : e = c
    · rw [if_pos he] at h
      exact absurd h (by simp)
    · rw [if_neg he] at h
      rw [if_neg he]
      exact ih h

/-- Updating an entry leaves the key sequence unchanged. -/
theorem updateTrace_keys (d : String) (f : EdgeTrace → EdgeTrace) :
    ∀ l : List (String × EdgeTrace),
      (updateTrace d f l).map Prod.fst = l.map Prod.fst := by
  intro l
  induction l with
  | nil => rfl
  | cons p rest ih =>
    obtain ⟨e, t⟩ := p
    rw [updateTrace]
    by_cases he : e = d
    · rw [if_pos he, List.map_cons, List.map_cons]
    · rw [if_neg he, List.map_cons, List.map_cons, ih]

/-- A key misses exactly when it is not among the stored keys. -/
theorem findTrace_eq_none_iff (c : String) :
    ∀ l : List (String × EdgeTrace),
      findTrace c l = none ↔ c ∉ l.map Prod.fst := by
  intro l
  induction l with
  | nil => simp [findTrace]
  | cons p rest ih =>
    obtain ⟨e, t⟩ := p
    rw [findTrace]
    by_cases he : e = c
    · subst he
      simp
    · rw [if_neg he, List.map_cons]
      rw [ih]
      simp [Ne.symm he]

/-- Extending by one edge then by a list is extending by the cons. -/
theorem extendTrace_cons (g : GalaxyGraph) (t : EdgeTrace) (e : Nat × Nat)
    (es : List (Nat × Nat)) :
    extendTrace g t (e :: es) = extendTrace g (addEdgeToTrace g e t) es := rfl

/-- The x-coordinates of an extended trace: the old ones then the segments. -/
theorem extendTrace_x (g : GalaxyGraph) :
    ∀ (es : List (Nat × Nat)) (t : EdgeTrace),
      (extendTrace g t es).x = t.x ++ segsX g es := by
  intro es
  induction es with
  | nil => intro t; rw [extendTrace, List.foldl_nil, segsX, List.append_nil]
  | cons e rest ih =>
    intro t
    rw [extendTrace_cons, ih, segsX, ← List.append_assoc]
    rfl

/-- The y-coordinates of an extended trace. -/
theorem extendTrace_y (g : GalaxyGraph) :
    ∀ (es : List (Nat × Nat)) (t : EdgeTrace),
      (extendTrace g t es).y = t.y ++ segsY g es := by
  intro es
  induction es with
  | nil => intro t; rw [extendTrace, List.foldl_nil, segsY, List.append_nil]
  | cons e rest ih =>
    intro t
    rw [extendTrace_cons, ih, segsY, ← List.append_assoc]
    rfl

/-- Extending never changes the line width fixed at trace creation. -/
theorem extendTrace_width (g : GalaxyGraph) :
    ∀ (es : List (Nat × Nat)) (t : EdgeTrace),
      (extendTrace g t es).width = t.width := by
  intro es
  induction es with
  | nil => intro t; rfl
  | cons e rest ih => intro t; rw [extendTrace_cons, ih]; rfl

/-- Each edge contributes exactly three x-entries (two endpoints and a gap). -/
theorem segsX_length (g : GalaxyGraph) :
    ∀ es : List (Nat × Nat), (segsX g es).length = 3 * es.length := by
  intro es
  induction es with
  | nil => rfl
  | cons e rest ih =>
    rw [segsX, List.length_append, ih, List.length_cons]
    rw [edgeSegX, List.length_cons, List.length_cons, List.length_cons,
      List.length_nil]
    omega

/-- Each edge contributes exactly three y-entries. -/
theorem segsY_length (g : GalaxyGraph) :
    ∀ es : List (Nat × Nat), (segsY g es).length = 3 * es.length := by
  intro es
  induction es with
  | nil => rfl
  | cons e rest ih =>
    rw [segsY, List.length_append, ih, List.length_cons]
    rw [edgeSegY, List.length_cons, List.length_cons, List.length_cons,
      List.length_nil]
    omega

/-- Unfolding the edge loop when the owner already has a trace. -/
theorem edgeTracesGo_cons_found (g : GalaxyGraph) (acc : List (String × EdgeTrace))
    (e : Nat × Nat) (rest : List (Nat × Nat)) (t : EdgeTrace)
    (h : findTrace (g.owner e) acc = some t) :
    edgeTracesGo g acc (e :: rest)
      = edgeTracesGo g (updateTrace (g.owner e) (addEdgeToTrace g e) acc) rest := by
  rw [edgeTracesGo, h]

/-- Unfolding the edge loop when the owner is seen for the first time. -/
theorem edgeTracesGo_cons_new (g : GalaxyGraph) (acc : List (String × EdgeTrace))
    (e : Nat × Nat) (rest : List (Nat × Nat))
    (h : findTrace (g.owner e) acc = none) :
    edgeTracesGo g acc (e :: rest)
      = edgeTracesGo g
          (updateTrace (g.owner e) (addEdgeToTrace g e)
            (acc ++ [(g.owner e, freshTrace (g.owner e))])) rest := by
  rw [edgeTracesGo, h]

/-- A key already present when the edge loop starts ends with its trace
extended by exactly the edges that key owns, in order. -/
theorem edgeTracesGo_lookup_some (g : GalaxyGraph) :
    ∀ (es : List (Nat × Nat)) (acc : List (String × EdgeTrace)) (c : String)
      (t : EdgeTrace), findTrace c acc = some t →
      findTrace c (edgeTracesGo g acc es)
        = some (extendTrace g t (es.filter (fun e => g.owner e = c))) := by
  intro es
  induction es with
  | nil =>
    intro acc c t h
    rw [edgeTracesGo, h]
    rfl
  | cons e rest ih =>
    intro acc c t h
    by_cases hcd : c = g.owner e
    · subst hcd
      rw [edgeTracesGo_cons_found g acc e rest t h]
      have hup : findTrace (g.owner e)
            (updateTrace (g.owner e) (addEdgeToTrace g e) acc)
          = some (addEdgeToTrace g e t) := by
        rw [findTrace_update, if_pos rfl, h, Option.map_some']
      rw [ih _ _ _ hup]
      have hfilter : (e :: rest).filter (fun e2 => g.owner e2 = g.owner e)
          = e :: rest.filter (fun e2 => g.owner e2 = g.owner e) := by
        simp [List.filter_cons]
      rw [hfilter, extendTrace_cons]
    · have howner : ¬ g.owner e = c := fun h2 => hcd h2.symm
      have hfilter : (e :: rest).filter (fun e2 => g.owner e2 = c)
          = rest.filter (fun e2 => g.owner e2 = c) := by
        simp [List.filter_cons, howner]
      rw [hfilter]
      cases hacc : findTrace (g.owner e) acc with
      | some u =>
        rw [edgeTracesGo_cons_found g acc e rest u hacc]
        apply ih
        rw [findTrace_update, if_neg hcd]
        exact h
      | none =>
        rw [edgeTracesGo_cons_new g acc e rest hacc]
        apply ih
        rw [findTrace_update, if_neg hcd]
        exact findTrace_append_of_some c t acc _ h

/-- A key absent when the edge loop starts appears exactly when it owns an
edge, and then carries a fresh trace extended by exactly its edges. -/
theorem edgeTracesGo_lookup_none (g : GalaxyGraph) :
    ∀ (es : List (Nat × Nat)) (acc : List (String × EdgeTrace)) (c : String),
      findTrace c acc = none →
      findTrace c (edgeTracesGo g acc es)
        = if es.any (fun e => g.owner e == c) = true
          then some (extendTrace g (freshTrace c)
            (es.filter (fun e => g.owner e = c)))
          else none := by
  intro es
  induction es with
  | nil =>
    intro acc c h
    rw [edgeTracesGo, h]
    simp
  | cons e rest ih =>
    intro acc c h
    by_cases hcd : c = g.owner e
    · subst hcd
      have hany : ((e :: rest).any (fun e2 => g.owner e2 == g.owner e)) = true := by
        simp [List.any_cons]
      have hfilter : (e :: rest).filter (fun e2 => g.owner e2 = g.owner e)
          = e :: rest.filter (fun e2 => g.owner e2 = g.owner e) := by
        simp [List.filter_cons]
      rw [hany, if_pos rfl, hfilter, extendTrace_cons]
      rw [edgeTracesGo_cons_new g acc e rest h]
      apply edgeTracesGo_lookup_some
      rw [findTrace_update, if_pos rfl, findTrace_append_of_none _ _ _ h,
        findTrace, if_pos rfl, Option.map_some']
    · have howner : ¬ g.owner e = c := fun h2 => hcd h2.symm
      have hany : ((e :: rest).any (fun e2 => g.owner e2 == c))
          = (rest.any (fun e2 => g.owner e2 == c)) := by
        simp [List.any_cons, howner]
      have hfilter : (e :: rest).filter (fun e2 => g.owner e2 = c)
          = rest.filter (fun e2 => g.owner e2 = c) := by
        simp [List.filter_cons, howner]
      rw [hany, hfilter]
      cases hacc : findTrace (g.owner e) acc with
      | some u =>
        rw [edgeTracesGo_cons_found g acc e rest u hacc]
        apply ih
        rw [findTrace_update, if_neg hcd]
        exact h
      | none =>
        rw [edgeTracesGo_cons_new g acc e rest hacc]
        apply ih
        rw [findTrace_update, if_neg hcd,
          findTrace_append_of_none _ _ _ h, findTrace, if_neg howner, findTrace]

/-- The edge loop keeps the owner keys distinct: one trace per owner. -/
theorem edgeTracesGo_keys_nodup (g : GalaxyGraph) :
    ∀ (es : List (Nat × Nat)) (acc : List (String × EdgeTrace)),
      (acc.map Prod.fst).Nodup → ((edgeTracesGo g acc es).map Prod.fst).Nodup := by
  intro es
  induction es with
  | nil => intro acc h; exact h
  | cons e rest ih =>
    intro acc h
    cases hacc : findTrace (g.owner e) acc with
    | some t =>
      rw [edgeTracesGo_cons_found g acc e rest t hacc]
      apply ih
      rw [updateTrace_keys]
      exact h
    | none =>
      rw [edgeTracesGo_cons_new g acc e rest hacc]
      apply ih
      rw [updateTrace_keys, List.map_append]
      have hnot : g.owner e ∉ acc.map Prod.fst := (findTrace_eq_none_iff _ _).mp hacc
      simp [List.nodup_append, h, hnot]

/-- Owning an edge is the same as a nonempty owned-edge list. -/
theorem owned_any_iff (g : GalaxyGraph) (c : String) (es : List (Nat × Nat)) :
    (es.any (fun e => g.owner e == c) = true)
      ↔ es.filter (fun e => g.owner e = c) ≠ [] := by
  rw [List.any_eq_true]
  constructor
  · rintro ⟨e, he, hb⟩ hnil
    have hm : e ∈ es.filter (fun e2 => g.owner e2 = c) :=
      List.mem_filter.mpr ⟨he, by simpa using hb⟩
    rw [hnil] at hm
    exact absurd hm (List.not_mem_nil e)
  · intro hne
    obtain ⟨e, he⟩ := List.exists_mem_of_ne_nil _ hne
    exact ⟨e, (List.mem_filter.mp he).1, by simpa using (List.mem_filter.mp he).2⟩

/-- C9: `get_galaxy` builds exactly one edge trace per owner that owns at
least one edge; an owner'\''s trace lists, per owned edge in order, the two
endpoint x- (resp. y-) coordinates followed by the `None` gap marker - so both
lists have length `3k` for `k` owned edges - and the line width is 1 for
`UNCLAIMED` and 8 for any real owner. -/
theorem claim_C9_galaxy_edge_traces (g : GalaxyGraph) :
    ((get_galaxy_edge_traces g).map Prod.fst).Nodup
      ∧ (∀ c, (findTrace c (get_galaxy_edge_traces g)).isSome = true
            ↔ ownedEdges g c ≠ [])
      ∧ ∀ c t, findTrace c (get_galaxy_edge_traces g) = some t →
          t.x = segsX g (ownedEdges g c)
            ∧ t.y = segsY g (ownedEdges g c)
            ∧ t.x.length = 3 * (ownedEdges g c).length
            ∧ t.y.length = 3 * (ownedEdges g c).length
            ∧ t.width = (if c = UNCLAIMED then 1 else 8) := by
  have hmain : ∀ c, findTrace c (get_galaxy_edge_traces g)
      = if g.edges.any (fun e => g.owner e == c) = true
        then some (extendTrace g (freshTrace c) (ownedEdges g c))
        else none := by
    intro c
    rw [get_galaxy_edge_traces]
    rw [edgeTracesGo_lookup_none g g.edges [] c rfl]
    rfl
  refine ⟨?_, ?_, ?_⟩
  · exact edgeTracesGo_keys_nodup g g.edges [] List.nodup_nil
  · intro c
    rw [hmain c]
    by_cases hany : g.edges.any (fun e => g.owner e == c) = true
    · rw [if_pos hany]
      exact ⟨fun _ => (owned_any_iff g c g.edges).mp hany, fun _ => rfl⟩
    · rw [if_neg hany]
      constructor
      · intro h
        exact absurd h (by simp)
      · intro hne
        exact absurd ((owned_any_iff g c g.edges).mpr hne) hany
  · intro c t ht
    rw [hmain c] at ht
    by_cases hany : g.edges.any (fun e => g.owner e == c) = true
    · rw [if_pos hany] at ht
      injection ht with ht
      subst ht
      refine ⟨?_, ?_, ?_, ?_, ?_⟩
      · rw [extendTrace_x]
        rfl
      · rw [extendTrace_y]
        rfl
      · rw [extendTrace_x]
        have hfx : (freshTrace c).x = [] := rfl
        rw [hfx, List.nil_append, segsX_length]
      · rw [extendTrace_y]
        have hfy : (freshTrace c).y = [] := rfl
        rw [hfy, List.nil_append, segsY_length]
      · rw [extendTrace_width]
        rfl
    · rw [if_neg hany] at ht
      exact absurd ht (by simp)

/-- A concrete four-system galaxy with one unclaimed hyperlane. -/
def galaxyG0 : GalaxyGraph :=
  { pos := fun n => ((n : Int), (2 * n : Int)),
    edges := [(0, 1), (1, 2), (2, 3)],
    owner := fun e => if e = (1, 2) then UNCLAIMED else "Empire" }

/-- The trace the witness expects for the owner "Empire" (two owned edges). -/
def traceEmpire : EdgeTrace :=
  { x := [some 0, some 1, none, some 2, some 3, none],
    y := [some 0, some 2, none, some 4, some 6, none],
    text := ["Empire", "Empire"],
    width := 8,
    color := get_country_color "Empire" 1,
    hoverinfo := "text", mode := "lines", showlegend := false }

/-- Witness for C9 at `galaxyG0`: the owner "Empire" has two edges, a
6-element coordinate pattern and width 8. -/
theorem claim_C9_witness :
    traceEmpire.x = segsX galaxyG0 (ownedEdges galaxyG0 "Empire")
      ∧ traceEmpire.y = segsY galaxyG0 (ownedEdges galaxyG0 "Empire")
      ∧ traceEmpire.x.length = 3 * (ownedEdges galaxyG0 "Empire").length
      ∧ traceEmpire.y.length = 3 * (ownedEdges galaxyG0 "Empire").length
      ∧ traceEmpire.width = (if "Empire" = UNCLAIMED then 1 else 8) :=
  (claim_C9_galaxy_edge_traces galaxyG0).2.2 "Empire" traceEmpire rfl

end StellarisDashboard

